import Mathlib

/-!
# Verification of `status.Line` (package `github.com/artyom/status`, file `line.go`)

The Go type `Line` prints a single status line to a terminal, overwriting it
on each `Print`/`Printf` call, and does nothing when its output is not a
terminal.  This development embeds the four methods of `Line` and its
unexported `init` as Lean functions over an explicit state, and proves the
properties of the written byte stream, of the one-time setup and of the
misuse panic of `SetOutput`.

## Embedding

* A Go `string` and a `[]byte` are lists of bytes (`Bytes`).
* A `*os.File` is an `Option File`; `none` is the nil pointer.
* The heap state of one `Line` is the record `Line`; `sync.Once` is its
  "done" flag.
* Everything outside the package is an oracle in `Env`: the value of the
  variable `os.Stdout` (a `*os.File`, which a program may have set to nil),
  `term.IsTerminal`, the result of `(*os.File).Write`, `fmt.Sprint` and
  `fmt.Sprintf`.  Terminal detection and write results depend on a clock, so
  the answer to the same question may change over time.
* `World` records the observable effects: every terminal-detection query and
  every write call, in order.
* A Go panic is the `Res.panic` result; the state at the point of the panic is
  returned with it, so that a caller who recovers can go on using the `Line`.
-/

namespace Status

/-- Byte strings: Go `string` and `[]byte` values. -/
abbrev Bytes := List UInt8

/-- Go `error` values, identified by their message. -/
abbrev Error := String

/-- An open `os.File`, as package `os` creates it (`os.Stdout`, `os.Create`,
...); `fd` is its file descriptor. -/
structure File where
  fd : Nat
deriving DecidableEq, Repr

/-- The results of the external functions the package calls.
`Stdout` is the value of the variable `os.Stdout`, of type `*os.File`: package
`os` sets it to an open file at program start, and a program may assign
anything to it, nil included.  `IsTerminal t fd` is the answer of
`term.IsTerminal(fd)` at time `t` for a valid descriptor `fd`; `Write t f b`
is the pair `(n, err)` that `f.Write(b)` returns at time `t`; `Sprint` and
`Sprintf` are `fmt.Sprint` and `fmt.Sprintf` over operands of type `α`. -/
structure Env (α : Type) where
  Stdout : Option File
  IsTerminal : Nat → Int → Bool
  Write : Nat → File → Bytes → Int × Option Error
  Sprint : List α → Bytes
  Sprintf : Bytes → List α → Bytes

/-- One call of `(*os.File).Write`: the file, the bytes passed, and the
pair `(n, err)` returned. -/
structure WriteCall where
  file : File
  data : Bytes
  n : Int
  err : Option Error
deriving DecidableEq, Repr

/-- The observable world: a clock that advances with every external call and
every method call, the descriptors passed to `term.IsTerminal` so far, and the
write calls issued so far (oldest first). -/
structure World where
  clock : Nat
  ttyQueries : List Int
  writes : List WriteCall
deriving DecidableEq, Repr

/-- The struct `Line` of line.go: `once` is the done flag of the `sync.Once`,
`w` the destination, `noop` the cached negated terminal detection, `buf` the
scratch buffer. -/
structure Line where
  once : Bool
  w : Option File
  noop : Bool
  buf : Bytes
deriving DecidableEq, Repr

/-- The value of `new(status.Line)`: the zero value of the struct. -/
def Line.zero : Line := { once := false, w := none, noop := false, buf := [] }

/-- A `Line` together with the world it acts on. -/
structure St where
  l : Line
  world : World
deriving DecidableEq, Repr

/-- A fresh `Line` in the world `W`. -/
def St.fresh (W : World) : St := { l := Line.zero, world := W }

/-- Result of a Go call: normal return of a value, or a panic. -/
inductive Res (β : Type) where
  | ret (v : β)
  | panic (msg : String)
deriving DecidableEq, Repr

/-- The constant `escPrefix` of line.go: `"\x1b[2K\r"`. -/
def escPrefix : Bytes := [0x1b, 0x5b, 0x32, 0x4b, 0x0d]

/-- The Go string `"\n"`. -/
def newline : Bytes := [0x0a]

/-- The error `os.ErrInvalid`, returned by file methods on a nil receiver. -/
def ErrInvalid : Error := "invalid argument"

/-- Method `(*os.File).Fd`: the descriptor; on a nil receiver it is
`^uintptr(0)`, which `int(...)` turns into `-1`. -/
def File.Fd : Option File → Int
  | none => -1
  | some f => (f.fd : Int)

/-- Function `term.IsTerminal(fd)`: the terminal query on a negative
descriptor (the `-1` of a nil file) fails, so the answer is `false`; on a
valid descriptor the answer is that of the oracle at the current time.  The
query is logged and the clock advances. -/
def IsTerminal {α : Type} (E : Env α) (fd : Int) (W : World) : Bool × World :=
  (decide (0 ≤ fd) && E.IsTerminal W.clock fd,
    { W with clock := W.clock + 1, ttyQueries := W.ttyQueries ++ [fd] })

/-- Method `(*os.File).Write(b)`: on a nil receiver it returns
`(0, os.ErrInvalid)` without writing; otherwise the call is logged with the
outcome the oracle gives at the current time, and the clock advances. -/
def File.Write {α : Type} (E : Env α) (f : Option File) (b : Bytes) (W : World) :
    (Int × Option Error) × World :=
  match f with
  | none => ((0, some ErrInvalid), W)
  | some g =>
    let r := E.Write W.clock g b
    (r, { W with clock := W.clock + 1,
                 writes := W.writes ++ [{ file := g, data := b, n := r.1, err := r.2 }] })

/-- Method `(*os.File).WriteString(s)`: `Write` of the bytes of `s`. -/
def File.WriteString {α : Type} (E : Env α) (f : Option File) (s : Bytes) (W : World) :
    (Int × Option Error) × World :=
  File.Write E f s W

/-- Method `Line.init`: `l.once.Do(func() { ... })`.  When the once flag is
already set the function body is skipped; otherwise the body assigns the
value of `os.Stdout` to `l.w` if `l.w` is nil, stores the negated terminal
detection of `l.w.Fd()` in `l.noop`, and the flag is set. -/
def Line.init {α : Type} (E : Env α) (s : St) : St :=
  if s.l.once then s
  else
    let l1 : Line := if s.l.w = none then { s.l with w := E.Stdout } else s.l
    let r := IsTerminal E (File.Fd l1.w) s.world
    { l := { l1 with noop := !r.1, once := true }, world := r.2 }

/-- Method `Line.SetOutput(f)`: panics if `l.w` is not nil, otherwise stores
`f` in `l.w` and calls `init`. -/
def Line.SetOutput {α : Type} (E : Env α) (f : Option File) (s : St) : Res Unit × St :=
  if s.l.w ≠ none then
    (Res.panic "Line.SetOutput must be called before any of other Line methods", s)
  else
    (Res.ret (), Line.init E { s with l := { s.l with w := f } })

/-- Method `Line.Print(a...)`. -/
def Line.Print {α : Type} (E : Env α) (a : List α) (s : St) :
    Res (Int × Option Error) × St :=
  let s1 := Line.init E s
  if s1.l.noop then (Res.ret (0, none), s1)
  else
    let l2 : Line := { s1.l with buf := s1.l.buf.take 0 ++ escPrefix }
    let l3 : Line := { l2 with buf := l2.buf ++ E.Sprint a }
    let r := File.Write E l3.w l3.buf s1.world
    (Res.ret r.1, { l := l3, world := r.2 })

/-- Method `Line.Printf(format, a...)`. -/
def Line.Printf {α : Type} (E : Env α) (format : Bytes) (a : List α) (s : St) :
    Res (Int × Option Error) × St :=
  let s1 := Line.init E s
  if s1.l.noop then (Res.ret (0, none), s1)
  else
    let l2 : Line := { s1.l with buf := s1.l.buf.take 0 ++ escPrefix }
    let l3 : Line := { l2 with buf := l2.buf ++ E.Sprintf format a }
    let r := File.Write E l3.w l3.buf s1.world
    (Res.ret r.1, { l := l3, world := r.2 })

/-- Method `Line.Done()`: the result of `WriteString` is discarded. -/
def Line.Done {α : Type} (E : Env α) (s : St) : Res Unit × St :=
  let s1 := Line.init E s
  if s1.l.noop then (Res.ret (), s1)
  else
    let r := File.WriteString E s1.l.w newline s1.world
    (Res.ret (), { s1 with world := r.2 })

/-! ## Sequences of calls -/

/-- One call of an exported method of `Line`. -/
inductive Op (α : Type) where
  | SetOutput (f : Option File)
  | Print (a : List α)
  | Printf (format : Bytes) (a : List α)
  | Done

/-- What a caller of a method observes: a normal return (of nothing, or of
the pair `(n, err)`), or a panic. -/
inductive Out where
  | unit
  | pair (n : Int) (err : Option Error)
  | panic (msg : String)
deriving DecidableEq, Repr

/-- Whether the observation is a panic. -/
def Out.isPanic : Out → Bool
  | Out.panic _ => true
  | _ => false

/-- Whether the call is a `SetOutput`. -/
def Op.isSetOutput {α : Type} : Op α → Bool
  | Op.SetOutput _ => true
  | _ => false

/-- Observation of a call without a result value. -/
def Out.ofUnit : Res Unit → Out
  | Res.ret _ => Out.unit
  | Res.panic m => Out.panic m

/-- Observation of a call returning `(n int, err error)`. -/
def Out.ofPair : Res (Int × Option Error) → Out
  | Res.ret r => Out.pair r.1 r.2
  | Res.panic m => Out.panic m

/-- Time passes between two method calls. -/
def St.tick (s : St) : St := { s with world := { s.world with clock := s.world.clock + 1 } }

/-- The caller performs one method call (a panic is recovered by the caller,
who keeps the `Line`), after which time passes. -/
def step {α : Type} (E : Env α) (op : Op α) (s : St) : Out × St :=
  match op with
  | Op.SetOutput f => let r := Line.SetOutput E f s; (Out.ofUnit r.1, r.2.tick)
  | Op.Print a => let r := Line.Print E a s; (Out.ofPair r.1, r.2.tick)
  | Op.Printf format a => let r := Line.Printf E format a s; (Out.ofPair r.1, r.2.tick)
  | Op.Done => let r := Line.Done E s; (Out.ofUnit r.1, r.2.tick)

/-- The state after a sequence of calls made one after the other. -/
def run {α : Type} (E : Env α) : List (Op α) → St → St
  | [], s => s
  | op :: rest, s => run E rest (step E op s).2

/-- The observations of the calls of a sequence, in order. -/
def trace {α : Type} (E : Env α) : List (Op α) → St → List Out
  | [], _ => []
  | op :: rest, s => (step E op s).1 :: trace E rest (step E op s).2

/-- The bytes that arrived at file `f`: of every write call on `f`, the
first `n` bytes of its payload, where `n` is the count the call returned. -/
def World.output (W : World) (f : File) : Bytes :=
  ((W.writes.filter (fun c => decide (c.file = f))).map
    (fun c => c.data.take c.n.toNat)).flatten

/-- The payloads of all write calls, oldest first. -/
def World.payloads (W : World) : List Bytes := W.writes.map WriteCall.data

/-! ## Concrete environments used to instantiate the theorems -/

/-- Descriptor 1 is a terminal until time 1 and no terminal afterwards; no
other descriptor is a terminal.  All writes succeed in full.  Operands are
byte strings, which `Sprint` concatenates; `Sprintf` ignores its operands. -/
def demoEnv : Env Bytes where
  Stdout := some { fd := 1 }
  IsTerminal := fun t fd => decide (fd = 1) && decide (t < 1)
  Write := fun _ _ b => ((b.length : Int), none)
  Sprint := fun a => a.flatten
  Sprintf := fun format _ => format

/-- Like `demoEnv`, but every write fails after 2 bytes. -/
def failEnv : Env Bytes where
  Stdout := some { fd := 1 }
  IsTerminal := fun t fd => decide (fd = 1) && decide (t < 1)
  Write := fun _ _ _ => (2, some "EIO")
  Sprint := fun a => a.flatten
  Sprintf := fun format _ => format

/-- Like `demoEnv`, but nothing is a terminal. -/
def pipeEnv : Env Bytes where
  Stdout := some { fd := 1 }
  IsTerminal := fun _ _ => false
  Write := fun _ _ b => ((b.length : Int), none)
  Sprint := fun a => a.flatten
  Sprintf := fun format _ => format

/-- The variable `os.Stdout` is nil; every valid descriptor is a terminal and
all writes succeed in full. -/
def nilEnv : Env Bytes where
  Stdout := none
  IsTerminal := fun _ _ => true
  Write := fun _ _ b => ((b.length : Int), none)
  Sprint := fun a => a.flatten
  Sprintf := fun format _ => format

/-- The world at program start. -/
def World.start : World := { clock := 0, ttyQueries := [], writes := [] }

/-- The bytes of `"step 1"`. -/
def stepOne : Bytes := [0x73, 0x74, 0x65, 0x70, 0x20, 0x31]

/-- The destination a fresh `Line` gets when `init` runs with `l.w = f`. -/
def bindTarget {α : Type} (E : Env α) (f : Option File) : Option File :=
  match f with
  | none => E.Stdout
  | some g => some g

/-- The destination the first call `op` on a fresh `Line` binds: the argument
of `SetOutput` when it is not nil, the value of `os.Stdout` otherwise. -/
def firstTarget {α : Type} (E : Env α) : Op α → Option File
  | Op.SetOutput f => bindTarget E f
  | _ => E.Stdout

/-- The invariant of a `Line`: once setup has run, a nil destination goes
with a set `noop` flag. -/
def Inv (s : St) : Prop := s.l.once = true → s.l.w = none → s.l.noop = true

/-- Setup has run on the `Line`: the destination is `f` and the cached
`noop` flag is `b`. -/
def Settled (s : St) (f : File) (b : Bool) : Prop :=
  s.l.once = true ∧ s.l.w = some f ∧ s.l.noop = b

/-- What the caller of a method that returns without doing anything
observes: `(0, nil)` for `Print` and `Printf`, a plain return otherwise. -/
def Op.noopResult {α : Type} : Op α → Out
  | Op.Print _ => Out.pair 0 none
  | Op.Printf _ _ => Out.pair 0 none
  | _ => Out.unit

/-- Whether a call ended in a panic. -/
def Res.isPanic {β : Type} : Res β → Bool
  | Res.panic _ => true
  | Res.ret _ => false

/-! ## Basic facts about `init` -/

theorem init_of_once {α : Type} (E : Env α) (s : St) (h : s.l.once = true) :
    Line.init E s = s := by
  simp [Line.init, h]

theorem init_once {α : Type} (E : Env α) (s : St) : (Line.init E s).l.once = true := by
  unfold Line.init
  split
  · assumption
  · rfl

theorem init_idem {α : Type} (E : Env α) (s : St) :
    Line.init E (Line.init E s) = Line.init E s :=
  init_of_once E _ (init_once E s)

theorem init_writes {α : Type} (E : Env α) (s : St) :
    (Line.init E s).world.writes = s.world.writes := by
  unfold Line.init
  split <;> rfl

theorem init_fresh {α : Type} (E : Env α) (s : St) (h : s.l.once = false) :
    Line.init E s =
      { l := { s.l with w := bindTarget E s.l.w,
                        noop := !(IsTerminal E (File.Fd (bindTarget E s.l.w)) s.world).1,
                        once := true },
        world := (IsTerminal E (File.Fd (bindTarget E s.l.w)) s.world).2 } := by
  unfold Line.init
  rw [if_neg (by simp [h])]
  cases hw : s.l.w <;> simp [bindTarget, hw]

theorem IsTerminal_nil {α : Type} (E : Env α) (W : World) :
    (IsTerminal E (File.Fd none) W).1 = false := by
  simp [IsTerminal, File.Fd]

theorem IsTerminal_some {α : Type} (E : Env α) (f : File) (W : World) :
    (IsTerminal E (File.Fd (some f)) W).1 = E.IsTerminal W.clock (f.fd : Int) := by
  simp [IsTerminal, File.Fd]

theorem inv_init_fresh {α : Type} (E : Env α) (s : St) (h : s.l.once = false) :
    Inv (Line.init E s) := by
  rw [init_fresh E s h]
  intro _ hw
  have hw2 : bindTarget E s.l.w = none := hw
  show (!(IsTerminal E (File.Fd (bindTarget E s.l.w)) s.world).1) = true
  rw [hw2, IsTerminal_nil]; rfl

theorem init_inv {α : Type} (E : Env α) (s : St) (h : Inv s) : Inv (Line.init E s) := by
  cases ho : s.l.once
  · exact inv_init_fresh E s ho
  · rw [init_of_once E s ho]; exact h

theorem inv_fresh (W : World) : Inv (St.fresh W) := by
  intro h; simp [St.fresh, Line.zero] at h

theorem init_target_of_tty {α : Type} (E : Env α) (s : St) (h : Inv s)
    (hterm : (Line.init E s).l.noop = false) : ∃ f, (Line.init E s).l.w = some f := by
  have hi := init_inv E s h (init_once E s)
  cases hw : (Line.init E s).l.w with
  | none => rw [hi hw] at hterm; cases hterm
  | some f => exact ⟨f, rfl⟩

/-! ## The methods on a `Line` whose setup gives a known result -/

theorem Print_noop {α : Type} (E : Env α) (a : List α) (s : St)
    (h : (Line.init E s).l.noop = true) :
    Line.Print E a s = (Res.ret (0, none), Line.init E s) := by
  simp [Line.Print, h]

theorem Printf_noop {α : Type} (E : Env α) (format : Bytes) (a : List α) (s : St)
    (h : (Line.init E s).l.noop = true) :
    Line.Printf E format a s = (Res.ret (0, none), Line.init E s) := by
  simp [Line.Printf, h]

theorem Done_noop {α : Type} (E : Env α) (s : St)
    (h : (Line.init E s).l.noop = true) :
    Line.Done E s = (Res.ret (), Line.init E s) := by
  simp [Line.Done, h]

theorem Print_tty {α : Type} (E : Env α) (a : List α) (s : St) (f : File)
    (h : (Line.init E s).l.noop = false) (hw : (Line.init E s).l.w = some f) :
    Line.Print E a s =
      (Res.ret (E.Write (Line.init E s).world.clock f (escPrefix ++ E.Sprint a)),
        { l := { (Line.init E s).l with buf := escPrefix ++ E.Sprint a },
          world := { (Line.init E s).world with
            clock := (Line.init E s).world.clock + 1,
            writes := s.world.writes ++
              [{ file := f, data := escPrefix ++ E.Sprint a,
                 n := (E.Write (Line.init E s).world.clock f (escPrefix ++ E.Sprint a)).1,
                 err := (E.Write (Line.init E s).world.clock f (escPrefix ++ E.Sprint a)).2 }] } }) := by
  simp [Line.Print, h, hw, File.Write, init_writes]

theorem Printf_tty {α : Type} (E : Env α) (format : Bytes) (a : List α) (s : St) (f : File)
    (h : (Line.init E s).l.noop = false) (hw : (Line.init E s).l.w = some f) :
    Line.Printf E format a s =
      (Res.ret (E.Write (Line.init E s).world.clock f (escPrefix ++ E.Sprintf format a)),
        { l := { (Line.init E s).l with buf := escPrefix ++ E.Sprintf format a },
          world := { (Line.init E s).world with
            clock := (Line.init E s).world.clock + 1,
            writes := s.world.writes ++
              [{ file := f, data := escPrefix ++ E.Sprintf format a,
                 n := (E.Write (Line.init E s).world.clock f (escPrefix ++ E.Sprintf format a)).1,
                 err := (E.Write (Line.init E s).world.clock f (escPrefix ++ E.Sprintf format a)).2 }] } }) := by
  simp [Line.Printf, h, hw, File.Write, init_writes]

theorem Done_tty {α : Type} (E : Env α) (s : St) (f : File)
    (h : (Line.init E s).l.noop = false) (hw : (Line.init E s).l.w = some f) :
    Line.Done E s =
      (Res.ret (),
        { l := (Line.init E s).l,
          world := { (Line.init E s).world with
            clock := (Line.init E s).world.clock + 1,
            writes := s.world.writes ++
              [{ file := f, data := newline,
                 n := (E.Write (Line.init E s).world.clock f newline).1,
                 err := (E.Write (Line.init E s).world.clock f newline).2 }] } }) := by
  simp [Line.Done, h, hw, File.Write, File.WriteString, init_writes]

theorem SetOutput_bound {α : Type} (E : Env α) (g : Option File) (s : St)
    (h : s.l.w ≠ none) :
    Line.SetOutput E g s =
      (Res.panic "Line.SetOutput must be called before any of other Line methods", s) := by
  simp [Line.SetOutput, h]

theorem SetOutput_unbound {α : Type} (E : Env α) (g : Option File) (s : St)
    (h : s.l.w = none) :
    Line.SetOutput E g s = (Res.ret (), Line.init E { s with l := { s.l with w := g } }) := by
  simp [Line.SetOutput, h]

/-! ## One call on a `Line` whose setup has run -/

theorem settled_init {α : Type} (E : Env α) (s : St) (f : File) (b : Bool)
    (h : Settled s f b) : Line.init E s = s :=
  init_of_once E s h.1

theorem step_settled {α : Type} (E : Env α) (op : Op α) (s : St) (f : File) (b : Bool)
    (h : Settled s f b) :
    Settled (step E op s).2 f b ∧
    (step E op s).2.world.ttyQueries = s.world.ttyQueries ∧
    ∃ extra, (step E op s).2.world.writes = s.world.writes ++ extra ∧
      ∀ c ∈ extra, c.file = f := by
  have hi := settled_init E s f b h
  obtain ⟨h1, h2, h3⟩ := h
  have hnil : s.world.writes = s.world.writes ++ [] := by simp
  cases op with
  | SetOutput g =>
    have hw : s.l.w ≠ none := by simp [h2]
    have e : step E (Op.SetOutput g) s
        = (Out.ofUnit (Line.SetOutput E g s).1, (Line.SetOutput E g s).2.tick) := rfl
    rw [e, SetOutput_bound E g s hw]
    exact ⟨⟨h1, h2, h3⟩, rfl, [], hnil, by simp⟩
  | Print a =>
    have e : step E (Op.Print a) s
        = (Out.ofPair (Line.Print E a s).1, (Line.Print E a s).2.tick) := rfl
    cases b
    · have hn : (Line.init E s).l.noop = false := by rw [hi]; exact h3
      have hw : (Line.init E s).l.w = some f := by rw [hi]; exact h2
      rw [e, Print_tty E a s f hn hw, hi]
      exact ⟨⟨h1, h2, h3⟩, rfl, _, rfl, by simp⟩
    · have hn : (Line.init E s).l.noop = true := by rw [hi]; exact h3
      rw [e, Print_noop E a s hn, hi]
      exact ⟨⟨h1, h2, h3⟩, rfl, [], hnil, by simp⟩
  | Printf format a =>
    have e : step E (Op.Printf format a) s
        = (Out.ofPair (Line.Printf E format a s).1, (Line.Printf E format a s).2.tick) := rfl
    cases b
    · have hn : (Line.init E s).l.noop = false := by rw [hi]; exact h3
      have hw : (Line.init E s).l.w = some f := by rw [hi]; exact h2
      rw [e, Printf_tty E format a s f hn hw, hi]
      exact ⟨⟨h1, h2, h3⟩, rfl, _, rfl, by simp⟩
    · have hn : (Line.init E s).l.noop = true := by rw [hi]; exact h3
      rw [e, Printf_noop E format a s hn, hi]
      exact ⟨⟨h1, h2, h3⟩, rfl, [], hnil, by simp⟩
  | Done =>
    have e : step E (Op.Done : Op α) s
        = (Out.ofUnit (Line.Done E s).1, (Line.Done E s).2.tick) := rfl
    cases b
    · have hn : (Line.init E s).l.noop = false := by rw [hi]; exact h3
      have hw : (Line.init E s).l.w = some f := by rw [hi]; exact h2
      rw [e, Done_tty E s f hn hw, hi]
      exact ⟨⟨h1, h2, h3⟩, rfl, _, rfl, by simp⟩
    · have hn : (Line.init E s).l.noop = true := by rw [hi]; exact h3
      rw [e, Done_noop E s hn, hi]
      exact ⟨⟨h1, h2, h3⟩, rfl, [], hnil, by simp⟩

/-! ## One call on a `Line` whose once flag is set -/

theorem step_once {α : Type} (E : Env α) (op : Op α) (s : St) (h : s.l.once = true) :
    (step E op s).2.l.once = true ∧
    (step E op s).2.l.noop = s.l.noop ∧
    (step E op s).2.world.ttyQueries = s.world.ttyQueries ∧
    (s.l.w ≠ none → (step E op s).2.l.w = s.l.w) ∧
    (op.isSetOutput = false → (step E op s).2.l.w = s.l.w) := by
  have hi := init_of_once E s h
  cases op with
  | SetOutput g =>
    by_cases hw : s.l.w = none
    · have hi2 : Line.init E { s with l := { s.l with w := g } }
          = { s with l := { s.l with w := g } } := init_of_once E _ h
      have e : step E (Op.SetOutput g) s
          = (Out.ofUnit (Line.SetOutput E g s).1, (Line.SetOutput E g s).2.tick) := rfl
      rw [e, SetOutput_unbound E g s hw, hi2]
      exact ⟨h, rfl, rfl, fun hn => absurd hw hn, fun hn => by simp [Op.isSetOutput] at hn⟩
    · have e : step E (Op.SetOutput g) s
          = (Out.ofUnit (Line.SetOutput E g s).1, (Line.SetOutput E g s).2.tick) := rfl
      rw [e, SetOutput_bound E g s hw]
      exact ⟨h, rfl, rfl, fun _ => rfl, fun _ => rfl⟩
  | Print a =>
    cases hn : s.l.noop
    · cases hw : s.l.w <;>
        simp [step, Line.Print, hi, hn, hw, h, File.Write, St.tick]
    · simp [step, Line.Print, hi, hn, h, St.tick]
  | Printf format a =>
    cases hn : s.l.noop
    · cases hw : s.l.w <;>
        simp [step, Line.Printf, hi, hn, hw, h, File.Write, St.tick]
    · simp [step, Line.Printf, hi, hn, h, St.tick]
  | Done =>
    cases hn : s.l.noop
    · cases hw : s.l.w <;>
        simp [step, Line.Done, hi, hn, hw, h, File.Write, File.WriteString, St.tick]
    · simp [step, Line.Done, hi, hn, h, St.tick]

theorem step_inv_once {α : Type} (E : Env α) (op : Op α) (s : St) (h : s.l.once = true)
    (hinv : Inv s) : Inv (step E op s).2 := by
  obtain ⟨_, h2, _, h4, _⟩ := step_once E op s h
  intro _ hw
  rw [h2]
  by_cases hs : s.l.w = none
  · exact hinv h hs
  · rw [h4 hs] at hw
    exact absurd hw hs

theorem run_once {α : Type} (E : Env α) (ops : List (Op α)) (s : St) (h : s.l.once = true)
    (hinv : Inv s) :
    (run E ops s).l.once = true ∧
    (run E ops s).l.noop = s.l.noop ∧
    (run E ops s).world.ttyQueries = s.world.ttyQueries ∧
    Inv (run E ops s) := by
  induction ops generalizing s with
  | nil => exact ⟨h, rfl, rfl, hinv⟩
  | cons op rest ih =>
    obtain ⟨h1, h2, h3, _, _⟩ := step_once E op s h
    obtain ⟨k1, k2, k3, k4⟩ := ih (step E op s).2 h1 (step_inv_once E op s h hinv)
    exact ⟨k1, by rw [run, k2, h2], by rw [run, k3, h3], k4⟩

/-! ## The first call on a fresh `Line` -/

theorem init_bind {α : Type} (E : Env α) (g : Option File) (W : World) :
    Line.init E { l := { Line.zero with w := g }, world := W } =
      { l := { once := true, w := bindTarget E g,
               noop := !(IsTerminal E (File.Fd (bindTarget E g)) W).1, buf := [] },
        world := { clock := W.clock + 1,
                   ttyQueries := W.ttyQueries ++ [File.Fd (bindTarget E g)],
                   writes := W.writes } } := by
  rw [init_fresh E _ rfl]
  rfl

theorem step_init {α : Type} (E : Env α) (op : Op α) (s : St)
    (h : op.isSetOutput = false) : step E op (Line.init E s) = step E op s := by
  cases op with
  | SetOutput g => simp [Op.isSetOutput] at h
  | Print a => simp only [step, Line.Print, init_idem]
  | Printf format a => simp only [step, Line.Printf, init_idem]
  | Done => simp only [step, Line.Done, init_idem]

theorem step_isPanic_of_settled {α : Type} (E : Env α) (op : Op α) (s : St)
    (h : op.isSetOutput = false) : (step E op s).1.isPanic = false := by
  cases op with
  | SetOutput g => simp [Op.isSetOutput] at h
  | Print a =>
    cases hn : (Line.init E s).l.noop <;>
      simp [step, Line.Print, hn, Out.ofPair, Out.isPanic]
  | Printf format a =>
    cases hn : (Line.init E s).l.noop <;>
      simp [step, Line.Printf, hn, Out.ofPair, Out.isPanic]
  | Done =>
    cases hn : (Line.init E s).l.noop <;>
      simp [step, Line.Done, hn, Out.ofUnit, Out.isPanic]

theorem step_first {α : Type} (E : Env α) (op : Op α) (W : World) :
    (step E op (St.fresh W)).2.l.once = true ∧
    (step E op (St.fresh W)).2.l.w = firstTarget E op ∧
    (step E op (St.fresh W)).2.l.noop
      = (!(IsTerminal E (File.Fd (firstTarget E op)) W).1) ∧
    (step E op (St.fresh W)).2.world.ttyQueries
      = W.ttyQueries ++ [File.Fd (firstTarget E op)] ∧
    (step E op (St.fresh W)).1.isPanic = false ∧
    Inv (step E op (St.fresh W)).2 := by
  by_cases hop : op.isSetOutput = true
  · cases op with
    | SetOutput g =>
      have e : step E (Op.SetOutput g) (St.fresh W)
          = (Out.ofUnit (Line.SetOutput E g (St.fresh W)).1,
              (Line.SetOutput E g (St.fresh W)).2.tick) := rfl
      have hinv : Inv (Line.init E { l := { Line.zero with w := g }, world := W }) :=
        inv_init_fresh E _ rfl
      have h2 := init_bind E g W
      rw [e, SetOutput_unbound E g (St.fresh W) rfl]
      simp only [St.fresh, Line.zero, firstTarget] at h2 hinv ⊢
      rw [h2] at hinv ⊢
      exact ⟨rfl, rfl, rfl, rfl, rfl, hinv⟩
    | Print a => simp [Op.isSetOutput] at hop
    | Printf format a => simp [Op.isSetOutput] at hop
    | Done => simp [Op.isSetOutput] at hop
  · have hop2 : op.isSetOutput = false := by simpa using hop
    have ht : firstTarget E op = E.Stdout := by
      cases op <;> first | rfl | simp [Op.isSetOutput] at hop2
    have hz : Line.init E (St.fresh W) = _ := init_bind E none W
    have ho : (Line.init E (St.fresh W)).l.once = true := init_once E _
    have hinv : Inv (Line.init E (St.fresh W)) := inv_init_fresh E _ rfl
    obtain ⟨k1, k2, k3, _, k5⟩ := step_once E op _ ho
    have k6 := step_inv_once E op _ ho hinv
    rw [step_init E op _ hop2] at k1 k2 k3 k5 k6
    rw [ht]
    refine ⟨k1, ?_, ?_, ?_, step_isPanic_of_settled E op _ hop2, k6⟩
    · rw [k5 hop2, hz]; rfl
    · rw [k2, hz]; rfl
    · rw [k3, hz]; rfl

/-! ## Sequences of calls from a fresh `Line` -/

theorem run_append {α : Type} (E : Env α) (xs ys : List (Op α)) (s : St) :
    run E (xs ++ ys) s = run E ys (run E xs s) := by
  induction xs generalizing s with
  | nil => rfl
  | cons x xs ih => exact ih (step E x s).2

theorem run_fresh_cons {α : Type} (E : Env α) (op : Op α) (rest : List (Op α)) (W : World) :
    (run E (op :: rest) (St.fresh W)).l.once = true ∧
    (run E (op :: rest) (St.fresh W)).l.noop
      = (!(IsTerminal E (File.Fd (firstTarget E op)) W).1) ∧
    (run E (op :: rest) (St.fresh W)).world.ttyQueries
      = W.ttyQueries ++ [File.Fd (firstTarget E op)] ∧
    Inv (run E (op :: rest) (St.fresh W)) := by
  obtain ⟨h1, _, h3, h4, _, h6⟩ := step_first E op W
  obtain ⟨k1, k2, k3, k4⟩ := run_once E rest _ h1 h6
  exact ⟨k1, by rw [run, k2, h3], by rw [run, k3, h4], k4⟩

theorem run_fresh_inv {α : Type} (E : Env α) (ops : List (Op α)) (W : World) :
    Inv (run E ops (St.fresh W)) := by
  cases ops with
  | nil => exact inv_fresh W
  | cons op rest => exact (run_fresh_cons E op rest W).2.2.2

/-! ## Calls that do nothing -/

theorem step_silent {α : Type} (E : Env α) (op : Op α) (s : St)
    (hn : (Line.init E s).l.noop = true) (hop : op.isSetOutput = false) :
    step E op s = (op.noopResult, (Line.init E s).tick) := by
  cases op with
  | SetOutput g => simp [Op.isSetOutput] at hop
  | Print a => simp only [step, Print_noop E a s hn, Out.ofPair, Op.noopResult]
  | Printf format a => simp only [step, Printf_noop E format a s hn, Out.ofPair, Op.noopResult]
  | Done => simp only [step, Done_noop E s hn, Out.ofUnit, Op.noopResult]

theorem init_tick {α : Type} (E : Env α) (s : St) :
    Line.init E (Line.init E s).tick = (Line.init E s).tick :=
  init_of_once E _ (init_once E s)

theorem run_silent {α : Type} (E : Env α) (ops : List (Op α)) (s : St)
    (hn : (Line.init E s).l.noop = true) (hops : ∀ op ∈ ops, op.isSetOutput = false) :
    (run E ops s).world.writes = s.world.writes ∧
    trace E ops s = ops.map Op.noopResult := by
  induction ops generalizing s with
  | nil => exact ⟨rfl, rfl⟩
  | cons op rest ih =>
    have hop := hops op (List.mem_cons_self _ _)
    have hrest : ∀ o ∈ rest, o.isSetOutput = false :=
      fun o ho => hops o (List.mem_cons_of_mem _ ho)
    have hstep := step_silent E op s hn hop
    have hn2 : (Line.init E (Line.init E s).tick).l.noop = true := by
      rw [init_tick]; exact hn
    obtain ⟨i1, i2⟩ := ih (Line.init E s).tick hn2 hrest
    constructor
    · rw [run, hstep, i1]
      exact init_writes E s
    · rw [trace, hstep, List.map_cons, i2]

/-! ## One call on a reachable `Line` whose destination is a terminal -/

theorem reach_target {α : Type} (E : Env α) (ops : List (Op α)) (W : World)
    (hterm : (Line.init E (run E ops (St.fresh W))).l.noop = false) :
    ∃ f, (Line.init E (run E ops (St.fresh W))).l.w = some f :=
  init_target_of_tty E _ (run_fresh_inv E ops W) hterm

/-! ## Updates followed by `Done` on a terminal -/

theorem step_Print_settled {α : Type} (E : Env α) (a : List α) (s : St) (f : File)
    (h : Settled s f false) :
    Settled (step E (Op.Print a) s).2 f false ∧
    ∃ c, (step E (Op.Print a) s).2.world.writes = s.world.writes ++ [c] ∧
      c.file = f ∧ c.data = escPrefix ++ E.Sprint a ∧
      (c.n, c.err) = E.Write s.world.clock f c.data ∧
      (step E (Op.Print a) s).1 = Out.pair c.n c.err := by
  have hi := settled_init E s f false h
  have hS := (step_settled E (Op.Print a) s f false h).1
  obtain ⟨h1, h2, h3⟩ := h
  have hn : (Line.init E s).l.noop = false := by rw [hi]; exact h3
  have hw : (Line.init E s).l.w = some f := by rw [hi]; exact h2
  have e : step E (Op.Print a) s
      = (Out.ofPair (Line.Print E a s).1, (Line.Print E a s).2.tick) := rfl
  refine ⟨hS, ?_⟩
  rw [e, Print_tty E a s f hn hw, hi]
  exact ⟨_, rfl, rfl, rfl, rfl, rfl⟩

theorem step_Done_settled {α : Type} (E : Env α) (s : St) (f : File)
    (h : Settled s f false) :
    Settled (step E (Op.Done : Op α) s).2 f false ∧
    ∃ c, (step E (Op.Done : Op α) s).2.world.writes = s.world.writes ++ [c] ∧
      c.file = f ∧ c.data = newline ∧
      (c.n, c.err) = E.Write s.world.clock f c.data := by
  have hi := settled_init E s f false h
  have hS := (step_settled E (Op.Done : Op α) s f false h).1
  obtain ⟨h1, h2, h3⟩ := h
  have hn : (Line.init E s).l.noop = false := by rw [hi]; exact h3
  have hw : (Line.init E s).l.w = some f := by rw [hi]; exact h2
  have e : step E (Op.Done : Op α) s
      = (Out.ofUnit (Line.Done E s).1, (Line.Done E s).2.tick) := rfl
  refine ⟨hS, ?_⟩
  rw [e, Done_tty E s f hn hw, hi]
  exact ⟨_, rfl, rfl, rfl, rfl⟩

theorem run_prints_settled {α : Type} (E : Env α) (ms : List (List α)) (s : St) (f : File)
    (h : Settled s f false) :
    Settled (run E (ms.map Op.Print) s) f false ∧
    ∃ cs, (run E (ms.map Op.Print) s).world.writes = s.world.writes ++ cs ∧
      cs.map WriteCall.data = ms.map (fun m => escPrefix ++ E.Sprint m) ∧
      (∀ c ∈ cs, c.file = f) ∧
      (∀ c ∈ cs, ∃ t, (c.n, c.err) = E.Write t f c.data) := by
  induction ms generalizing s with
  | nil => exact ⟨h, [], by simp [run], rfl, by simp, by simp⟩
  | cons m ms ih =>
    obtain ⟨hS, c, hc1, hc2, hc3, hc4, _⟩ := step_Print_settled E m s f h
    obtain ⟨hS2, cs, k1, k2, k3, k4⟩ := ih (step E (Op.Print m) s).2 hS
    refine ⟨hS2, c :: cs, ?_, ?_, ?_, ?_⟩
    · simp only [List.map_cons, run]
      rw [k1, hc1, List.append_assoc]; rfl
    · simp only [List.map_cons, k2, hc3]
    · intro d hd
      rcases List.mem_cons.1 hd with hd | hd
      · rw [hd]; exact hc2
      · exact k3 d hd
    · intro d hd
      rcases List.mem_cons.1 hd with hd | hd
      · rw [hd]; exact ⟨_, hc4⟩
      · exact k4 d hd

theorem run_updates_Done_settled {α : Type} (E : Env α) (ms : List (List α)) (s : St)
    (f : File) (h : Settled s f false) :
    ∃ cs, (run E (ms.map Op.Print ++ [Op.Done]) s).world.writes = s.world.writes ++ cs ∧
      cs.map WriteCall.data = ms.map (fun m => escPrefix ++ E.Sprint m) ++ [newline] ∧
      (∀ c ∈ cs, c.file = f) ∧
      (∀ c ∈ cs, ∃ t, (c.n, c.err) = E.Write t f c.data) := by
  obtain ⟨hS, cs, k1, k2, k3, k4⟩ := run_prints_settled E ms s f h
  obtain ⟨_, c, hc1, hc2, hc3, hc4⟩ := step_Done_settled E _ f hS
  refine ⟨cs ++ [c], ?_, ?_, ?_, ?_⟩
  · rw [run_append]
    show (step E Op.Done (run E (ms.map Op.Print) s)).2.world.writes = _
    rw [hc1, k1, List.append_assoc]
  · rw [List.map_append, k2]; simp [hc3]
  · intro d hd
    rcases List.mem_append.1 hd with hd | hd
    · exact k3 d hd
    · rw [List.mem_singleton.1 hd]; exact hc2
  · intro d hd
    rcases List.mem_append.1 hd with hd | hd
    · exact k4 d hd
    · rw [List.mem_singleton.1 hd]; exact ⟨_, hc4⟩

theorem run_init {α : Type} (E : Env α) (op : Op α) (rest : List (Op α)) (s : St)
    (h : op.isSetOutput = false) :
    run E (op :: rest) (Line.init E s) = run E (op :: rest) s := by
  simp only [run, step_init E op s h]

theorem output_append (W1 W2 : World) (cs : List WriteCall) (f : File)
    (hw : W2.writes = W1.writes ++ cs) (hf : ∀ c ∈ cs, c.file = f)
    (hn : ∀ c ∈ cs, c.n = (c.data.length : Int)) :
    W2.output f = W1.output f ++ (cs.map WriteCall.data).flatten := by
  have h1 : cs.filter (fun c => decide (c.file = f)) = cs :=
    List.filter_eq_self.2 (fun c hc => by simpa using hf c hc)
  have h2 : cs.map (fun c => c.data.take c.n.toNat) = cs.map WriteCall.data :=
    List.map_congr_left (fun c hc => by rw [hn c hc]; simp)
  simp only [World.output, hw, List.filter_append, List.map_append, List.flatten_append, h1, h2]

/-! ## The guard of `SetOutput` when `os.Stdout` is not nil -/

theorem run_w_of_bound {α : Type} (E : Env α) (ops : List (Op α)) (s : St)
    (h : s.l.once = true) (hw : s.l.w ≠ none) : (run E ops s).l.w = s.l.w := by
  induction ops generalizing s with
  | nil => rfl
  | cons op rest ih =>
    obtain ⟨h1, _, _, h4, _⟩ := step_once E op s h
    have hw2 : (step E op s).2.l.w ≠ none := by rw [h4 hw]; exact hw
    rw [run, ih _ h1 hw2, h4 hw]

theorem firstTarget_of_Stdout {α : Type} (E : Env α) (op : Op α) (h : E.Stdout ≠ none) :
    firstTarget E op ≠ none := by
  cases op with
  | SetOutput g => cases g <;> simp [firstTarget, bindTarget, h]
  | Print a => exact h
  | Printf format a => exact h
  | Done => exact h

/-- When the variable `os.Stdout` is not nil, the destination of a `Line`
reached from a fresh one is not nil exactly when the once flag is set, it is
the destination the first call bound, and `SetOutput` panics exactly when the
once flag is set. -/
theorem SetOutput_guard_of_Stdout {α : Type} (E : Env α) (W : World) (ops : List (Op α))
    (g : Option File) (h : E.Stdout ≠ none) :
    ((run E ops (St.fresh W)).l.w ≠ none ↔ (run E ops (St.fresh W)).l.once = true) ∧
    ((Line.SetOutput E g (run E ops (St.fresh W))).1.isPanic = true
      ↔ (run E ops (St.fresh W)).l.once = true) ∧
    (∀ op rest, ops = op :: rest → (run E ops (St.fresh W)).l.w = firstTarget E op) := by
  have hw : ∀ op rest, ops = op :: rest → (run E ops (St.fresh W)).l.w = firstTarget E op := by
    intro op rest he
    obtain ⟨h1, h2, _⟩ := step_first E op W
    have hne : (step E op (St.fresh W)).2.l.w ≠ none := by
      rw [h2]; exact firstTarget_of_Stdout E op h
    rw [he, run, run_w_of_bound E rest _ h1 hne, h2]
  have hiff : (run E ops (St.fresh W)).l.w ≠ none ↔ (run E ops (St.fresh W)).l.once = true := by
    cases ops with
    | nil => simp [run, St.fresh, Line.zero]
    | cons op rest =>
      have h1 := (run_fresh_cons E op rest W).1
      have h2 := hw op rest rfl
      constructor
      · intro _; exact h1
      · intro _; rw [h2]; exact firstTarget_of_Stdout E op h
  refine ⟨hiff, ?_, hw⟩
  rw [← hiff]
  by_cases hn : (run E ops (St.fresh W)).l.w = none
  · simp [SetOutput_unbound E g _ hn, hn, Res.isPanic]
  · simp [SetOutput_bound E g _ hn, hn, Res.isPanic]

theorem SetOutput_guard_of_Stdout_demo :
    demoEnv.Stdout ≠ none ∧
    (Line.SetOutput demoEnv (some { fd := 6 })
      (run demoEnv [Op.Print [stepOne]] (St.fresh World.start))).1.isPanic = true :=
  ⟨by decide,
   (SetOutput_guard_of_Stdout demoEnv World.start [Op.Print [stepOne]] (some { fd := 6 })
      (by decide)).2.1.2 (by decide)⟩

/-! ## The claims -/

/-- C1: on a `Line` whose destination is detected as not a terminal (the
setup, already run or run by the first call, leaves `noop` set), any sequence
of `Print`, `Printf` and `Done` calls issues no write at all, and every
`Print` and `Printf` returns `(0, nil)`. -/
theorem C1_non_terminal_is_silent {α : Type} (E : Env α) (s : St) (ops : List (Op α))
    (hdet : (Line.init E s).l.noop = true)
    (hops : ∀ op ∈ ops, op.isSetOutput = false) :
    (run E ops s).world.writes = s.world.writes ∧
    (run E ops s).world.output = s.world.output ∧
    trace E ops s = ops.map Op.noopResult ∧
    (∀ a, Line.Print E a s = (Res.ret (0, none), Line.init E s)) ∧
    (∀ format a, Line.Printf E format a s = (Res.ret (0, none), Line.init E s)) := by
  obtain ⟨h1, h2⟩ := run_silent E ops s hdet hops
  refine ⟨h1, ?_, h2, fun a => Print_noop E a s hdet,
    fun format a => Printf_noop E format a s hdet⟩
  funext f
  simp only [World.output, h1]

theorem C1_witness :
    (Line.init pipeEnv (St.fresh World.start)).l.noop = true ∧
    (run pipeEnv [Op.Print [stepOne], Op.Printf stepOne [], Op.Done, Op.Print [newline]]
        (St.fresh World.start)).world.writes = [] ∧
    trace pipeEnv [Op.Print [stepOne], Op.Printf stepOne [], Op.Done, Op.Print [newline]]
        (St.fresh World.start)
      = [Out.pair 0 none, Out.pair 0 none, Out.unit, Out.pair 0 none] := by
  have h := C1_non_terminal_is_silent pipeEnv (St.fresh World.start)
    [Op.Print [stepOne], Op.Printf stepOne [], Op.Done, Op.Print [newline]]
    (by decide) (by decide)
  exact ⟨by decide, h.1, h.2.2.1⟩

/-- C2: on a `Line` reached by any sequence of calls from a fresh one, whose
destination is detected as a terminal, `Print` and `Printf` append exactly one
write call to the log, on the bound destination, and its payload is the five
bytes `1B 5B 32 4B 0D` followed by the rendered text and nothing else,
whatever the scratch buffer held before. -/
theorem C2_terminal_payload {α : Type} (E : Env α) (W : World) (ops : List (Op α))
    (format : Bytes) (a : List α)
    (hterm : (Line.init E (run E ops (St.fresh W))).l.noop = false) :
    escPrefix = [0x1b, 0x5b, 0x32, 0x4b, 0x0d] ∧
    escPrefix ++ stepOne
      = [0x1b, 0x5b, 0x32, 0x4b, 0x0d, 0x73, 0x74, 0x65, 0x70, 0x20, 0x31] ∧
    ∃ f, (Line.init E (run E ops (St.fresh W))).l.w = some f ∧
      (∃ n err, (Line.Print E a (run E ops (St.fresh W))).2.world.writes
        = (run E ops (St.fresh W)).world.writes
            ++ [{ file := f, data := escPrefix ++ E.Sprint a, n := n, err := err }]) ∧
      (∃ n err, (Line.Printf E format a (run E ops (St.fresh W))).2.world.writes
        = (run E ops (St.fresh W)).world.writes
            ++ [{ file := f, data := escPrefix ++ E.Sprintf format a, n := n, err := err }]) := by
  obtain ⟨f, hf⟩ := reach_target E ops W hterm
  refine ⟨rfl, rfl, f, hf, ?_, ?_⟩
  · rw [Print_tty E a _ f hterm hf]; exact ⟨_, _, rfl⟩
  · rw [Printf_tty E format a _ f hterm hf]; exact ⟨_, _, rfl⟩

theorem C2_witness :
    (Line.init demoEnv
      (run demoEnv [Op.Print [newline, stepOne, newline]] (St.fresh World.start))).l.noop = false ∧
    (escPrefix = [0x1b, 0x5b, 0x32, 0x4b, 0x0d] ∧
      escPrefix ++ stepOne
        = [0x1b, 0x5b, 0x32, 0x4b, 0x0d, 0x73, 0x74, 0x65, 0x70, 0x20, 0x31] ∧
      ∃ f, (Line.init demoEnv
          (run demoEnv [Op.Print [newline, stepOne, newline]] (St.fresh World.start))).l.w = some f ∧
        (∃ n err, (Line.Print demoEnv [stepOne]
            (run demoEnv [Op.Print [newline, stepOne, newline]]
              (St.fresh World.start))).2.world.writes
          = (run demoEnv [Op.Print [newline, stepOne, newline]] (St.fresh World.start)).world.writes
              ++ [{ file := f, data := escPrefix ++ demoEnv.Sprint [stepOne],
                    n := n, err := err }]) ∧
        (∃ n err, (Line.Printf demoEnv stepOne [stepOne]
            (run demoEnv [Op.Print [newline, stepOne, newline]]
              (St.fresh World.start))).2.world.writes
          = (run demoEnv [Op.Print [newline, stepOne, newline]] (St.fresh World.start)).world.writes
              ++ [{ file := f, data := escPrefix ++ demoEnv.Sprintf stepOne [stepOne],
                    n := n, err := err }])) ∧
    (Line.Print demoEnv [stepOne]
        (run demoEnv [Op.Print [newline, stepOne, newline]] (St.fresh World.start))).2.world.writes
      = [{ file := { fd := 1 },
           data := [0x1b, 0x5b, 0x32, 0x4b, 0x0d, 0x0a, 0x73, 0x74, 0x65, 0x70, 0x20, 0x31, 0x0a],
           n := 13, err := none },
         { file := { fd := 1 },
           data := [0x1b, 0x5b, 0x32, 0x4b, 0x0d, 0x73, 0x74, 0x65, 0x70, 0x20, 0x31],
           n := 11, err := none }] :=
  ⟨by decide,
   C2_terminal_payload demoEnv World.start [Op.Print [newline, stepOne, newline]]
     stepOne [stepOne] (by decide),
   by decide⟩

/-- C5: on a reachable `Line` whose destination is detected as a terminal,
`Print` and `Printf` each issue exactly one write call, and return exactly the
pair `(n, err)` which that call returned, whatever it is. -/
theorem C5_write_result_verbatim {α : Type} (E : Env α) (W : World) (ops : List (Op α))
    (format : Bytes) (a : List α)
    (hterm : (Line.init E (run E ops (St.fresh W))).l.noop = false) :
    ∃ f, (Line.init E (run E ops (St.fresh W))).l.w = some f ∧
      (∃ c, (Line.Print E a (run E ops (St.fresh W))).2.world.writes
            = (run E ops (St.fresh W)).world.writes ++ [c] ∧
          c.file = f ∧
          (c.n, c.err) = E.Write (Line.init E (run E ops (St.fresh W))).world.clock f
            (escPrefix ++ E.Sprint a) ∧
          (Line.Print E a (run E ops (St.fresh W))).1 = Res.ret (c.n, c.err)) ∧
      (∃ c, (Line.Printf E format a (run E ops (St.fresh W))).2.world.writes
            = (run E ops (St.fresh W)).world.writes ++ [c] ∧
          c.file = f ∧
          (c.n, c.err) = E.Write (Line.init E (run E ops (St.fresh W))).world.clock f
            (escPrefix ++ E.Sprintf format a) ∧
          (Line.Printf E format a (run E ops (St.fresh W))).1 = Res.ret (c.n, c.err)) := by
  obtain ⟨f, hf⟩ := reach_target E ops W hterm
  refine ⟨f, hf, ?_, ?_⟩
  · rw [Print_tty E a _ f hterm hf]; exact ⟨_, rfl, rfl, rfl, rfl⟩
  · rw [Printf_tty E format a _ f hterm hf]; exact ⟨_, rfl, rfl, rfl, rfl⟩

theorem C5_witness :
    (Line.init failEnv (run failEnv [Op.Done] (St.fresh World.start))).l.noop = false ∧
    (∃ f, (Line.init failEnv (run failEnv [Op.Done] (St.fresh World.start))).l.w = some f ∧
      (∃ c, (Line.Print failEnv [stepOne]
              (run failEnv [Op.Done] (St.fresh World.start))).2.world.writes
            = (run failEnv [Op.Done] (St.fresh World.start)).world.writes ++ [c] ∧
          c.file = f ∧
          (c.n, c.err)
            = failEnv.Write (Line.init failEnv
                (run failEnv [Op.Done] (St.fresh World.start))).world.clock f
              (escPrefix ++ failEnv.Sprint [stepOne]) ∧
          (Line.Print failEnv [stepOne] (run failEnv [Op.Done] (St.fresh World.start))).1
            = Res.ret (c.n, c.err)) ∧
      (∃ c, (Line.Printf failEnv newline [stepOne]
              (run failEnv [Op.Done] (St.fresh World.start))).2.world.writes
            = (run failEnv [Op.Done] (St.fresh World.start)).world.writes ++ [c] ∧
          c.file = f ∧
          (c.n, c.err)
            = failEnv.Write (Line.init failEnv
                (run failEnv [Op.Done] (St.fresh World.start))).world.clock f
              (escPrefix ++ failEnv.Sprintf newline [stepOne]) ∧
          (Line.Printf failEnv newline [stepOne]
              (run failEnv [Op.Done] (St.fresh World.start))).1
            = Res.ret (c.n, c.err))) ∧
    (Line.Print failEnv [stepOne] (run failEnv [Op.Done] (St.fresh World.start))).1
      = Res.ret (2, some "EIO") :=
  ⟨by decide,
   C5_write_result_verbatim failEnv World.start [Op.Done] newline [stepOne] (by decide),
   by decide⟩

/-- C6: on a `Line` reached by any sequence of calls from a fresh one, whose
destination is detected as a terminal, `Done` appends exactly one write call
to the log, on the bound destination, whose payload is the single byte `0A`,
and returns normally. -/
theorem C6_Done_writes_one_newline {α : Type} (E : Env α) (W : World) (ops : List (Op α))
    (hterm : (Line.init E (run E ops (St.fresh W))).l.noop = false) :
    ∃ f, (Line.init E (run E ops (St.fresh W))).l.w = some f ∧
      (Line.Done E (run E ops (St.fresh W))).1 = Res.ret () ∧
      ∃ n err, (Line.Done E (run E ops (St.fresh W))).2.world.writes
        = (run E ops (St.fresh W)).world.writes
            ++ [{ file := f, data := [0x0a], n := n, err := err }] := by
  obtain ⟨f, hf⟩ := reach_target E ops W hterm
  refine ⟨f, hf, ?_, ?_⟩
  · rw [Done_tty E _ f hterm hf]
  · rw [Done_tty E _ f hterm hf]; exact ⟨_, _, rfl⟩

theorem C6_witness :
    (Line.init demoEnv (run demoEnv [Op.Print [stepOne], Op.Printf stepOne []]
      (St.fresh World.start))).l.noop = false ∧
    (∃ f, (Line.init demoEnv (run demoEnv [Op.Print [stepOne], Op.Printf stepOne []]
          (St.fresh World.start))).l.w = some f ∧
      (Line.Done demoEnv (run demoEnv [Op.Print [stepOne], Op.Printf stepOne []]
          (St.fresh World.start))).1 = Res.ret () ∧
      ∃ n err, (Line.Done demoEnv (run demoEnv [Op.Print [stepOne], Op.Printf stepOne []]
          (St.fresh World.start))).2.world.writes
        = (run demoEnv [Op.Print [stepOne], Op.Printf stepOne []]
            (St.fresh World.start)).world.writes
            ++ [{ file := f, data := [0x0a], n := n, err := err }]) ∧
    (Line.Done demoEnv (run demoEnv [Op.Print [stepOne], Op.Printf stepOne []]
        (St.fresh World.start))).2.world.payloads
      = [[0x1b, 0x5b, 0x32, 0x4b, 0x0d, 0x73, 0x74, 0x65, 0x70, 0x20, 0x31],
         [0x1b, 0x5b, 0x32, 0x4b, 0x0d, 0x73, 0x74, 0x65, 0x70, 0x20, 0x31],
         [0x0a]] :=
  ⟨by decide,
   C6_Done_writes_one_newline demoEnv World.start [Op.Print [stepOne], Op.Printf stepOne []]
     (by decide),
   by decide⟩

/-- C9: on a `Line` reached by any sequence of calls from a fresh one, and for
any results of the writes, `Print`, `Printf` and `Done` return without a
panic: `Print` and `Printf` return `(0, nil)` or the pair returned by the one
write call they issued, and `Done` returns normally, whether its write failed
or not. -/
theorem C9_Print_Printf_Done_never_panic {α : Type} (E : Env α) (W : World)
    (ops : List (Op α)) (format : Bytes) (a : List α) :
    ((Line.Print E a (run E ops (St.fresh W))).1 = Res.ret (0, none) ∨
      ∃ c, (Line.Print E a (run E ops (St.fresh W))).2.world.writes
            = (run E ops (St.fresh W)).world.writes ++ [c] ∧
          (Line.Print E a (run E ops (St.fresh W))).1 = Res.ret (c.n, c.err)) ∧
    ((Line.Printf E format a (run E ops (St.fresh W))).1 = Res.ret (0, none) ∨
      ∃ c, (Line.Printf E format a (run E ops (St.fresh W))).2.world.writes
            = (run E ops (St.fresh W)).world.writes ++ [c] ∧
          (Line.Printf E format a (run E ops (St.fresh W))).1 = Res.ret (c.n, c.err)) ∧
    (Line.Done E (run E ops (St.fresh W))).1 = Res.ret () ∧
    (Line.Print E a (run E ops (St.fresh W))).1.isPanic = false ∧
    (Line.Printf E format a (run E ops (St.fresh W))).1.isPanic = false ∧
    (Line.Done E (run E ops (St.fresh W))).1.isPanic = false := by
  cases hn : (Line.init E (run E ops (St.fresh W))).l.noop
  · obtain ⟨f, hf⟩ := reach_target E ops W hn
    rw [Print_tty E a _ f hn hf, Printf_tty E format a _ f hn hf, Done_tty E _ f hn hf]
    exact ⟨Or.inr ⟨_, rfl, rfl⟩, Or.inr ⟨_, rfl, rfl⟩, rfl, rfl, rfl, rfl⟩
  · rw [Print_noop E a _ hn, Printf_noop E format a _ hn, Done_noop E _ hn]
    exact ⟨Or.inl rfl, Or.inl rfl, rfl, rfl, rfl, rfl⟩

/-- C4: on a `Line` whose setup (already run, or run by the first call) finds
the destination `f` to be a terminal, the calls `Print(m1)`, ..., `Print(mk)`,
`Done()` issue exactly `k+1` write calls, all on `f`, whose payloads are, in
order, `escPrefix ++ m1`, ..., `escPrefix ++ mk`, `"\n"`; when every write
succeeds in full, the bytes that arrive at `f` are the concatenation of these
payloads. -/
theorem C4_updates_then_Done_stream {α : Type} (E : Env α) (s : St) (f : File)
    (ms : List (List α))
    (hterm : (Line.init E s).l.noop = false)
    (hw : (Line.init E s).l.w = some f)
    (hok : ∀ t g b, E.Write t g b = ((b.length : Int), none)) :
    (run E (ms.map Op.Print ++ [Op.Done]) s).world.payloads
      = s.world.payloads ++ ms.map (fun m => escPrefix ++ E.Sprint m) ++ [[0x0a]] ∧
    (run E (ms.map Op.Print ++ [Op.Done]) s).world.writes.length
      = s.world.writes.length + (ms.length + 1) ∧
    (∃ cs, (run E (ms.map Op.Print ++ [Op.Done]) s).world.writes = s.world.writes ++ cs ∧
      ∀ c ∈ cs, c.file = f ∧ c.n = (c.data.length : Int) ∧ c.err = none) ∧
    (run E (ms.map Op.Print ++ [Op.Done]) s).world.output f
      = s.world.output f
          ++ (ms.map (fun m => escPrefix ++ E.Sprint m)).flatten ++ [0x0a] := by
  have hS : Settled (Line.init E s) f false := ⟨init_once E s, hw, hterm⟩
  obtain ⟨cs, k1, k2, k3, k4⟩ := run_updates_Done_settled E ms _ f hS
  have hrun : run E (ms.map Op.Print ++ [Op.Done]) (Line.init E s)
      = run E (ms.map Op.Print ++ [Op.Done]) s := by
    cases ms with
    | nil => exact run_init E Op.Done [] s rfl
    | cons m ms => exact run_init E (Op.Print m) _ s rfl
  rw [hrun, init_writes] at k1
  have hn : ∀ c ∈ cs, c.n = (c.data.length : Int) ∧ c.err = none := by
    intro c hc
    obtain ⟨t, ht⟩ := k4 c hc
    rw [hok] at ht
    exact ⟨congrArg Prod.fst ht, congrArg Prod.snd ht⟩
  have hlen : cs.length = ms.length + 1 := by
    have := congrArg List.length k2
    simpa using this
  refine ⟨?_, ?_, ⟨cs, k1, fun c hc => ⟨k3 c hc, hn c hc⟩⟩, ?_⟩
  · simp only [World.payloads, k1, List.map_append, k2, newline, List.append_assoc]
  · rw [k1, List.length_append, hlen]
  · rw [output_append s.world _ cs f k1 k3 (fun c hc => (hn c hc).1), k2]
    simp [newline]

theorem C4_witness :
    ((Line.init demoEnv (St.fresh World.start)).l.noop = false ∧
      (Line.init demoEnv (St.fresh World.start)).l.w = some { fd := 1 } ∧
      ∀ t g b, demoEnv.Write t g b = ((b.length : Int), none)) ∧
    (run demoEnv ([[[0x41]], [[0x42, 0x42]]].map Op.Print ++ [Op.Done])
        (St.fresh World.start)).world.output { fd := 1 }
      = [0x1b, 0x5b, 0x32, 0x4b, 0x0d, 0x41,
         0x1b, 0x5b, 0x32, 0x4b, 0x0d, 0x42, 0x42,
         0x0a] ∧
    (run demoEnv ([[[0x41]], [[0x42, 0x42]]].map Op.Print ++ [Op.Done])
        (St.fresh World.start)).world.writes.length = 3 := by
  have h := C4_updates_then_Done_stream demoEnv (St.fresh World.start) { fd := 1 }
    [[[0x41]], [[0x42, 0x42]]] (by decide) (by decide) (fun _ _ _ => rfl)
  refine ⟨⟨by decide, by decide, fun _ _ _ => rfl⟩, ?_, ?_⟩
  · rw [h.2.2.2]; decide
  · rw [h.2.1]; decide

/-- C7: for calls made one after the other on a fresh `Line`, no
terminal-detection query is made while no call is made; the first call,
whichever it is, makes exactly one query, on the descriptor of the destination
it binds; no later call (a panicking `SetOutput` included) makes another one;
`init` leaves every later state as it is; and the cached flag, which alone
decides whether a later `Print`, `Printf` or `Done` writes, stays the negated
answer which the detection gave at the time of the first call (for a
destination that is an open file, the answer of the oracle at that time),
whatever the oracle answers at later times. -/
theorem C7_detection_runs_once {α : Type} (E : Env α) (W : World) (op : Op α)
    (rest : List (Op α)) (format : Bytes) (a : List α) :
    (run E ([] : List (Op α)) (St.fresh W)).world.ttyQueries = W.ttyQueries ∧
    (step E op (St.fresh W)).2.world.ttyQueries
      = W.ttyQueries ++ [File.Fd (firstTarget E op)] ∧
    (run E (op :: rest) (St.fresh W)).world.ttyQueries
      = W.ttyQueries ++ [File.Fd (firstTarget E op)] ∧
    (run E (op :: rest) (St.fresh W)).world.ttyQueries.length = W.ttyQueries.length + 1 ∧
    Line.init E (run E (op :: rest) (St.fresh W)) = run E (op :: rest) (St.fresh W) ∧
    (run E (op :: rest) (St.fresh W)).l.noop
      = (!(IsTerminal E (File.Fd (firstTarget E op)) W).1) ∧
    (∀ f, firstTarget E op = some f →
      (run E (op :: rest) (St.fresh W)).l.noop = (!E.IsTerminal W.clock (f.fd : Int))) ∧
    (Line.Print E a (run E (op :: rest) (St.fresh W))).2.world.writes.length
      = (run E (op :: rest) (St.fresh W)).world.writes.length
          + (if (IsTerminal E (File.Fd (firstTarget E op)) W).1 then 1 else 0) ∧
    (Line.Printf E format a (run E (op :: rest) (St.fresh W))).2.world.writes.length
      = (run E (op :: rest) (St.fresh W)).world.writes.length
          + (if (IsTerminal E (File.Fd (firstTarget E op)) W).1 then 1 else 0) ∧
    (Line.Done E (run E (op :: rest) (St.fresh W))).2.world.writes.length
      = (run E (op :: rest) (St.fresh W)).world.writes.length
          + (if (IsTerminal E (File.Fd (firstTarget E op)) W).1 then 1 else 0) := by
  obtain ⟨ho, hnoop, hq, hinv⟩ := run_fresh_cons E op rest W
  have hi := init_of_once E _ ho
  refine ⟨rfl, (step_first E op W).2.2.2.1, hq, by rw [hq]; simp, hi, hnoop, ?_, ?_⟩
  · intro f hf
    rw [hnoop, hf, IsTerminal_some]
  cases hb : (IsTerminal E (File.Fd (firstTarget E op)) W).1
  · rw [hb] at hnoop
    have hn : (Line.init E (run E (op :: rest) (St.fresh W))).l.noop = true := by
      rw [hi]; exact hnoop
    rw [Print_noop E a _ hn, Printf_noop E format a _ hn, Done_noop E _ hn, hi]
    simp
  · rw [hb] at hnoop
    have hn : (Line.init E (run E (op :: rest) (St.fresh W))).l.noop = false := by
      rw [hi]; exact hnoop
    obtain ⟨f, hw⟩ := init_target_of_tty E _ hinv hn
    rw [Print_tty E a _ _ hn hw, Printf_tty E format a _ _ hn hw, Done_tty E _ _ hn hw]
    simp

theorem C7_witness :
    demoEnv.IsTerminal 0 1 = true ∧
    demoEnv.IsTerminal (run demoEnv [Op.Done, Op.Print [stepOne], Op.SetOutput none]
      (St.fresh World.start)).world.clock 1 = false ∧
    (run demoEnv [Op.Done, Op.Print [stepOne], Op.SetOutput none]
      (St.fresh World.start)).world.ttyQueries = [1] ∧
    (run demoEnv [Op.Done, Op.Print [stepOne], Op.SetOutput none]
      (St.fresh World.start)).l.noop = false := by
  have h := C7_detection_runs_once demoEnv World.start Op.Done
    [Op.Print [stepOne], Op.SetOutput none] [] []
  refine ⟨by decide, by decide, ?_, ?_⟩
  · rw [h.2.2.1]; decide
  · rw [h.2.2.2.2.2.1]; decide

/-- C3: the claim fails on the code when the variable `os.Stdout` is nil: on a
fresh `Line`, `Print` completes and runs the setup (the once flag is set), and
the `SetOutput(f)` that follows does not panic but returns normally. -/
theorem C3_SetOutput_returns_after_Print_when_Stdout_nil :
    (run nilEnv [Op.Print [stepOne]] (St.fresh World.start)).l.once = true ∧
    (Line.SetOutput nilEnv (some { fd := 6 })
      (run nilEnv [Op.Print [stepOne]] (St.fresh World.start))).1 = Res.ret () ∧
    trace nilEnv [Op.Print [stepOne], Op.SetOutput (some { fd := 6 }), Op.SetOutput none]
        (St.fresh World.start)
      = [Out.pair 0 none, Out.unit,
         Out.panic "Line.SetOutput must be called before any of other Line methods"] := by
  decide

/-- C8: the claim fails on the code when the variable `os.Stdout` is nil: on a
fresh `Line`, `Print` runs the setup with a nil destination and the detection
query is made on descriptor `-1`; the `SetOutput(f)` that follows returns
normally and changes the destination to `f`, while the cached flag of the
detection stays, so that a later `Print` on `f` writes nothing. -/
theorem C8_destination_changes_after_setup_when_Stdout_nil :
    (run nilEnv [Op.Print [stepOne]] (St.fresh World.start)).l
      = { once := true, w := none, noop := true, buf := [] } ∧
    (run nilEnv [Op.Print [stepOne], Op.SetOutput (some { fd := 6 })]
        (St.fresh World.start)).l
      = { once := true, w := some { fd := 6 }, noop := true, buf := [] } ∧
    (run nilEnv [Op.Print [stepOne], Op.SetOutput (some { fd := 6 }), Op.Print [stepOne]]
        (St.fresh World.start)).world
      = { clock := 4, ttyQueries := [-1], writes := [] } := by
  decide

/-- C10: the claim fails on the code when the variable `os.Stdout` is nil:
`SetOutput(nil)` on a fresh `Line` returns normally and sets the once flag,
but leaves the destination nil, and a second `SetOutput` returns normally
too. -/
theorem C10_SetOutput_nil_leaves_nil_when_Stdout_nil :
    Line.SetOutput nilEnv none (St.fresh World.start)
      = (Res.ret (),
          { l := { once := true, w := none, noop := true, buf := [] },
            world := { clock := 1, ttyQueries := [-1], writes := [] } }) ∧
    trace nilEnv [Op.SetOutput none, Op.SetOutput none] (St.fresh World.start)
      = [Out.unit, Out.unit] := by
  decide

end Status
